import Mathlib

/-!
Verification of the SEC 10-K margin calculator against its design document.

The development shallowly embeds the deterministic core of
`calculate_margins_xbrl.py` (filing locator, concept resolver, margin
calculator) and the JSON-recovery step of `calculate_margins_llm.py`.
Python dictionaries become association lists, JSON numbers become `Rat`,
fallible library calls (`int(...)`, network-free parts only) become
`Except`/`Option` results.  Facts keep exactly the fields the embedded
code reads: `end`, `form`, `fp`, `filed`, `val` and the unit annotation
added by `_flatten_facts_for_concept`.
-/

namespace Sec

/-- Python `sub in s` on strings: substring containment. -/
def strContains (s sub : String) : Bool :=
  decide (sub.toList <:+: s.toList)

/-- Python `s[:n]` on strings. -/
def strTake (s : String) (n : Nat) : String :=
  String.mk (s.toList.take n)

/-- Numeric value of a decimal digit list. -/
def digitsToNat (ds : List Char) : Nat :=
  ds.foldl (fun acc c => acc * 10 + (c.toNat - '0'.toNat)) 0

/-- Python `int(s)` on the (unsigned decimal) strings this program slices out of
dates; `none` models the `ValueError` raised on a non-digit string. -/
def strToNat? (s : String) : Option Nat :=
  match s.toList with
  | [] => none
  | l => if l.all (fun c => c.isDigit) then some (digitsToNat l) else none

/-- Python `a < b` on strings: strict lexicographic comparison by code
point. -/
def charListLt : List Char → List Char → Bool
  | [], [] => false
  | [], _ :: _ => true
  | _ :: _, [] => false
  | a :: al, b :: bl =>
    if a.toNat < b.toNat then true
    else if b.toNat < a.toNat then false
    else charListLt al bl

/-- Python `a < b` on strings. -/
def strLtB (a b : String) : Bool :=
  charListLt a.toList b.toList

/-- Python `a <= b` on strings (total order, so `¬(b < a)`). -/
def strLeB (a b : String) : Bool :=
  !(strLtB b a)

/-- One XBRL fact dictionary, with exactly the keys the resolver reads.
`none` models an absent key.  `val` is `none` when the `val` key is absent
or its content cannot be converted by `float(...)`; both cases make the
Python code `continue` identically. -/
structure Fact where
  endDate : Option String
  form : Option String
  fp : Option String
  filed : Option String
  val : Option Rat
  unit : Option String := none
  deriving Repr, DecidableEq

/-- A companyfacts concept object: its `units` dictionary as an ordered
association list from unit name to fact list. -/
def ConceptObj := List (String × List Fact)

/-- Embeds `_flatten_facts_for_concept`: flatten across units into one list, each
fact annotated with its unit (the `_unit` key). -/
def flatten_facts_for_concept (units : ConceptObj) : List Fact :=
  (units.map fun p => p.2.map fun f => { f with unit := some p.1 }).flatten

/-- The inner `filter_facts` helper of `pick_fact_value`. -/
def filter_facts (facts : List Fact) (endC : Option String)
    (require_10k : Bool) (require_fy : Bool) : List Fact :=
  facts.filter fun f =>
    (match endC with
     | some e => f.endDate == some e
     | none => true) &&
    (!require_10k || strContains (f.form.getD "") "10-K") &&
    (!require_fy ||
      match f.fp with
      | none => true
      | some fp => fp == "FY" || fp == "Y")

/-- Stage 5 of `pick_fact_value`: any fact whose `end` has at least four
characters and whose leading four characters parse to the target year.
(`if not end or len(end) < 4: continue`, then `int(end[:4])` guarded by
`try`/`except`.) -/
def stage5_facts (flat : List Fact) (target_year : Nat) : List Fact :=
  flat.filter fun f =>
    match f.endDate with
    | none => false
    | some e =>
      if e == "" || e.length < 4 then false
      else
        match strToNat? (strTake e 4) with
        | none => false
        | some y => y == target_year

/-- The five-stage candidate selection of `pick_fact_value` for one
concept's flattened facts.  Stage 5 evaluates `int(target_end[:4])`
without a `try`, so an unparseable target end raises (`Except.error`). -/
def candidatesFor (flat : List Fact) (target_end : Option String) :
    Except Unit (List Fact) :=
  let c1 : List Fact :=
    match target_end with
    | some t => filter_facts flat (some t) true true
    | none => []
  let c2 : List Fact :=
    if c1.isEmpty then
      match target_end with
      | some t => filter_facts flat (some t) true false
      | none => []
    else c1
  let c3 : List Fact := if c2.isEmpty then filter_facts flat none true true else c2
  let c4 : List Fact := if c3.isEmpty then filter_facts flat none true false else c3
  if c4.isEmpty then
    match target_end with
    | some t =>
      match strToNat? (strTake t 4) with
      | none => Except.error ()
      | some ty => Except.ok (stage5_facts flat ty)
    | none => Except.ok c4
  else Except.ok c4

/-- Sort key used at line 227: `f.get("filed", "0000-00-00")`. -/
def filedKey (f : Fact) : String :=
  f.filed.getD "0000-00-00"

/-- Insert into a descending-sorted list, before the first element whose
key is `≤` the inserted one: together with `sortDescKey` this reproduces
Python's stable `list.sort(key=..., reverse=True)`, which keeps equal
keys in their original relative order. -/
def insertDescKey (key : α → String) (x : α) : List α → List α
  | [] => [x]
  | y :: ys => if strLeB (key y) (key x) then x :: y :: ys else y :: insertDescKey key x ys

/-- Stable descending sort by a string key (Python `sort(key=..., reverse=True)`). -/
def sortDescKey (key : α → String) (l : List α) : List α :=
  l.foldr (insertDescKey key) []

/-- First element attaining the maximal key (ties to the earlier element):
the head of the stable descending sort, in direct recursive form. -/
def pickFirstMaxKey (key : α → String) : List α → Option α
  | [] => none
  | x :: xs =>
    match pickFirstMaxKey key xs with
    | none => some x
    | some y => if strLeB (key y) (key x) then some x else some y

/-- Embeds `us_gaap.get(concept_name)` on the ordered concept dictionary. -/
def lookupConcept (us_gaap : List (String × ConceptObj)) (name : String) :
    Option ConceptObj :=
  (us_gaap.find? fun p => p.1 == name).map fun p => p.2

/-- One iteration of the `for concept_name in concept_candidates` loop of
`pick_fact_value`: `Except.ok none` collects every `continue`
(concept absent, no facts, no candidates at any stage, missing or
unconvertible `val`); `Except.ok (some v)` is a usable value;
`Except.error` is the unguarded `int(target_end[:4])` raising. -/
def resolveConcept (us_gaap : List (String × ConceptObj)) (name : String)
    (target_end : Option String) : Except Unit (Option Rat) :=
  match lookupConcept us_gaap name with
  | none => Except.ok none
  | some cobj =>
    let flat := flatten_facts_for_concept cobj
    if flat.isEmpty then Except.ok none
    else
      match candidatesFor flat target_end with
      | Except.error e => Except.error e
      | Except.ok cands =>
        if cands.isEmpty then Except.ok none
        else
          match (sortDescKey filedKey cands).head? with
          | none => Except.ok none
          | some chosen => Except.ok chosen.val

/-- Embeds `pick_fact_value`: try each concept name in order, return the first
usable value paired with the concept that produced it, else `(None, None)`. -/
def pick_fact_value (us_gaap : List (String × ConceptObj))
    (concept_candidates : List String) (target_end : Option String) :
    Except Unit (Option Rat × Option String) :=
  match concept_candidates with
  | [] => Except.ok (none, none)
  | name :: rest =>
    match resolveConcept us_gaap name target_end with
    | Except.error e => Except.error e
    | Except.ok none => pick_fact_value us_gaap rest target_end
    | Except.ok (some v) => Except.ok (some v, some name)

/-! ### Filing locator (`get_10k_metadata`) -/

/-- One row of the zipped parallel arrays
`zip(forms, accession_numbers, primary_docs, report_dates)`. -/
structure FilingEntry where
  form : String
  acc : String
  doc : String
  rdate : String
  deriving Repr, DecidableEq

/-- The candidate dictionary built inside `get_10k_metadata`. -/
structure Candidate where
  accession_number : String
  primary_document : String
  report_date : String
  year : Nat
  deriving Repr, DecidableEq

/-- Python `zip` of the four parallel arrays (truncating at the shortest). -/
def zip4 : List String → List String → List String → List String → List FilingEntry
  | f :: fs, a :: al, d :: dl, r :: rl => ⟨f, a, d, r⟩ :: zip4 fs al dl rl
  | _, _, _, _ => []

/-- The candidate-collection loop of `get_10k_metadata`: keep rows whose
form is exactly `"10-K"` and whose report date is non-empty;
`int(rdate[:4])` is unguarded, so an unparseable year raises. -/
def buildCandidates : List FilingEntry → Except String (List Candidate)
  | [] => Except.ok []
  | e :: rest =>
    if e.form == "10-K" then
      if e.rdate == "" then buildCandidates rest
      else
        match strToNat? (strTake e.rdate 4) with
        | none => Except.error "ValueError: invalid year in reportDate"
        | some y =>
          match buildCandidates rest with
          | Except.error msg => Except.error msg
          | Except.ok cs => Except.ok (⟨e.acc, e.doc, e.rdate, y⟩ :: cs)
    else buildCandidates rest

/-- Most recent candidate by report date: head of the stable descending
sort (a sorted non-empty list stays non-empty, so the `none` branch of the
callers below is dead code). -/
def mostRecent (l : List Candidate) : Option Candidate :=
  (sortDescKey Candidate.report_date l).head?

/-- The selection logic of `get_10k_metadata` after the candidate loop
(`if not candidates: raise` onwards). -/
def selectCandidate (candidates : List Candidate) (year : Option Nat) :
    Except String Candidate :=
  if candidates.isEmpty then
    Except.error "No 10-K filings found for this CIK."
  else
    match year with
    | none =>
      match mostRecent candidates with
      | some c => Except.ok c
      | none => Except.error "unreachable"
    | some y =>
      let exact := candidates.filter fun c => c.year == y
      if !exact.isEmpty then
        match mostRecent exact with
        | some c => Except.ok c
        | none => Except.error "unreachable"
      else
        let before := candidates.filter fun c => decide (c.year ≤ y)
        if !before.isEmpty then
          match mostRecent before with
          | some c => Except.ok c
          | none => Except.error "unreachable"
        else
          match mostRecent candidates with
          | some c => Except.ok c
          | none => Except.error "unreachable"

/-- Embeds `get_10k_metadata` over the zipped filing history: candidate loop,
then selection. -/
def locate10k (entries : List FilingEntry) (year : Option Nat) :
    Except String Candidate :=
  match buildCandidates entries with
  | Except.error msg => Except.error msg
  | Except.ok candidates => selectCandidate candidates year

/-- Embeds `get_10k_metadata` on the four parallel arrays of the submissions
payload (network fetch elided). -/
def get_10k_metadata (forms accs docs rdates : List String)
    (year : Option Nat) : Except String Candidate :=
  locate10k (zip4 forms accs docs rdates) year

/-! ### Margin calculator (`compute_margins`) -/

/-- The five numeric fields of the extracted financials that
`compute_margins` reads (each `None` when unresolved). -/
structure Financials where
  net_sales : Option Rat
  gross_profit : Option Rat
  operating_income : Option Rat
  net_income : Option Rat
  ebitda : Option Rat
  deriving Repr, DecidableEq

/-- The four computed margins. -/
structure MarginsOut where
  net_sales_margin : Option Rat
  gross_margin : Option Rat
  operating_margin : Option Rat
  ebitda_margin : Option Rat
  deriving Repr, DecidableEq

/-- Embeds `safe_div`: `None` when the numerator is absent or the denominator is
absent or zero. -/
def safe_div (num den : Option Rat) : Option Rat :=
  match num, den with
  | some n, some d => if d = 0 then none else some (n / d)
  | _, _ => none

/-- Embeds `compute_margins`. -/
def compute_margins (fin : Financials) : MarginsOut :=
  ⟨safe_div fin.net_income fin.net_sales,
   safe_div fin.gross_profit fin.net_sales,
   safe_div fin.operating_income fin.net_sales,
   safe_div fin.ebitda fin.net_sales⟩

/-! ### Derivation steps in `main` (gross profit and EBITDA) -/

/-- Lines 382–388 of `calculate_margins_xbrl.py`: derive gross profit
only when the resolver returned `None` and both inputs are present. -/
def deriveGrossProfit (val : Option Rat) (concept : Option String)
    (net_sales cost_of_revenue : Option Rat) : Option Rat × Option String :=
  match val, net_sales, cost_of_revenue with
  | none, some ns, some cor =>
    (some (ns - cor), some "Derived: net_sales - cost_of_revenue")
  | v, _, _ => (v, concept)

/-- Lines 405–412: derive EBITDA only when the resolver returned `None`
and both inputs are present. -/
def deriveEbitda (val : Option Rat) (concept : Option String)
    (operating_income depr_amort : Option Rat) : Option Rat × Option String :=
  match val, operating_income, depr_amort with
  | none, some oi, some da =>
    (some (oi + da), some "Derived: operating_income + depreciation_and_amortization")
  | v, _, _ => (v, concept)

/-! ### JSON recovery (`call_deepseek_for_income_statement`, response part)

A model of `json.loads` (strict JSON values: null, booleans, numbers,
strings with the common escapes, arrays, objects; object members kept in
textual order) sufficient for the recovery logic, plus the
`re.search(r'\x7b.*\x7d', content, re.DOTALL)` extraction, which spans
from the first opening brace to the last closing brace. -/

/-- The opening-brace character. -/
def lbrace : Char := Char.ofNat 123

/-- The closing-brace character. -/
def rbrace : Char := Char.ofNat 125

/-- JSON values. -/
inductive JVal where
  | jnull
  | jbool (b : Bool)
  | jnum (q : Rat)
  | jstr (s : String)
  | jarr (xs : List JVal)
  | jobj (kvs : List (String × JVal))
  deriving Repr

/-- JSON whitespace skipping. -/
def skipWs : List Char → List Char
  | c :: cs =>
    if c = ' ' ∨ c = '\t' ∨ c = '\n' ∨ c = '\r' then skipWs cs else c :: cs
  | [] => []

/-- Value of a hexadecimal digit. -/
def hexVal? (c : Char) : Option Nat :=
  if '0' ≤ c ∧ c ≤ '9' then some (c.toNat - '0'.toNat)
  else if 'a' ≤ c ∧ c ≤ 'f' then some (c.toNat - 'a'.toNat + 10)
  else if 'A' ≤ c ∧ c ≤ 'F' then some (c.toNat - 'A'.toNat + 10)
  else none

/-- Body of a JSON string literal, after the opening quote; returns the
decoded characters and the input after the closing quote.  Control
characters are rejected, as in strict `json.loads`; `\\u` escapes are
decoded without surrogate pairing (no input in this development uses
them). -/
def parseStringBody (fuel : Nat) (cs : List Char) : Option (List Char × List Char) :=
  match fuel, cs with
  | 0, _ => none
  | _, [] => none
  | fuel + 1, c :: rest =>
    if c = '"' then some ([], rest)
    else if c = '\\' then
      match rest with
      | [] => none
      | e :: rest2 =>
        let dec : Option (Char × List Char) :=
          if e = '"' then some ('"', rest2)
          else if e = '\\' then some ('\\', rest2)
          else if e = '/' then some ('/', rest2)
          else if e = 'b' then some (Char.ofNat 8, rest2)
          else if e = 'f' then some (Char.ofNat 12, rest2)
          else if e = 'n' then some ('\n', rest2)
          else if e = 'r' then some ('\r', rest2)
          else if e = 't' then some ('\t', rest2)
          else if e = 'u' then
            match rest2 with
            | h1 :: h2 :: h3 :: h4 :: rest3 =>
              match hexVal? h1, hexVal? h2, hexVal? h3, hexVal? h4 with
              | some a, some b, some c3, some d =>
                some (Char.ofNat (((a * 16 + b) * 16 + c3) * 16 + d), rest3)
              | _, _, _, _ => none
            | _ => none
          else none
        match dec with
        | none => none
        | some (ch, rest2) =>
          match parseStringBody fuel rest2 with
          | none => none
          | some (tail, rem) => some (ch :: tail, rem)
    else if c.toNat < 32 then none
    else
      match parseStringBody fuel rest with
      | none => none
      | some (tail, rem) => some (c :: tail, rem)

/-- Split a leading run of decimal digits. -/
def takeDigits : List Char → List Char × List Char
  | c :: cs =>
    if c.isDigit then
      let p := takeDigits cs
      (c :: p.1, p.2)
    else ([], c :: cs)
  | [] => ([], [])

/-- A strict JSON number (`-?int frac? exp?`, no leading zeros), returning
its exact rational value (built with `mkRat` over integer arithmetic) and
the remaining input. -/
def parseNumber (cs : List Char) : Option (Rat × List Char) :=
  let signed : Bool × List Char :=
    match cs with
    | c :: rest => if c = '-' then (true, rest) else (false, cs)
    | [] => (false, cs)
  let ip := takeDigits signed.2
  match ip.1 with
  | [] => none
  | d0 :: drest =>
    if d0 = '0' ∧ drest ≠ [] then none
    else
      let fr : Option (List Char × List Char) :=
        match ip.2 with
        | c :: rest =>
          if c = '.' then
            let fp := takeDigits rest
            match fp.1 with
            | [] => none
            | _ => some (fp.1, fp.2)
          else some ([], ip.2)
        | [] => some ([], ip.2)
      match fr with
      | none => none
      | some (fracDigits, afterFrac) =>
        let ex : Option (Int × List Char) :=
          match afterFrac with
          | c :: rest =>
            if c = 'e' ∨ c = 'E' then
              let se : Bool × List Char :=
                match rest with
                | c2 :: rest2 =>
                  if c2 = '-' then (true, rest2)
                  else if c2 = '+' then (false, rest2)
                  else (false, rest)
                | [] => (false, rest)
              let ep := takeDigits se.2
              match ep.1 with
              | [] => none
              | _ =>
                let e : Int := Int.ofNat (digitsToNat ep.1)
                some (if se.1 then -e else e, ep.2)
            else some (0, afterFrac)
          | [] => some (0, afterFrac)
        match ex with
        | none => none
        | some (e, rem) =>
          let m : Nat := digitsToNat (ip.1 ++ fracDigits)
          let num : Int := if signed.1 then -(m : Int) else (m : Int)
          let q : Rat :=
            if 0 ≤ e then
              mkRat (num * Int.pow 10 e.toNat) (Nat.pow 10 fracDigits.length)
            else
              mkRat num (Nat.pow 10 fracDigits.length * Nat.pow 10 (-e).toNat)
          some (q, rem)

/-- Expect a literal keyword. -/
def expectChars : List Char → List Char → Option (List Char)
  | [], cs => some cs
  | k :: ks, c :: cs => if c = k then expectChars ks cs else none
  | _ :: _, [] => none

mutual

/-- One JSON value (leading whitespace allowed), with fuel. -/
def parseVal : Nat → List Char → Option (JVal × List Char)
  | 0, _ => none
  | fuel + 1, cs =>
    match skipWs cs with
    | [] => none
    | c :: rest =>
      if c = 'n' then
        match expectChars ['u', 'l', 'l'] rest with
        | some rem => some (JVal.jnull, rem)
        | none => none
      else if c = 't' then
        match expectChars ['r', 'u', 'e'] rest with
        | some rem => some (JVal.jbool true, rem)
        | none => none
      else if c = 'f' then
        match expectChars ['a', 'l', 's', 'e'] rest with
        | some rem => some (JVal.jbool false, rem)
        | none => none
      else if c = '"' then
        match parseStringBody (rest.length + 1) rest with
        | some (body, rem) => some (JVal.jstr (String.mk body), rem)
        | none => none
      else if c = lbrace then
        match skipWs rest with
        | c2 :: rest2 =>
          if c2 = rbrace then some (JVal.jobj [], rest2)
          else
            match parseObjItems fuel (c2 :: rest2) with
            | some (kvs, rem) => some (JVal.jobj kvs, rem)
            | none => none
        | [] => none
      else if c = '[' then
        match skipWs rest with
        | c2 :: rest2 =>
          if c2 = ']' then some (JVal.jarr [], rest2)
          else
            match parseArrItems fuel (c2 :: rest2) with
            | some (xs, rem) => some (JVal.jarr xs, rem)
            | none => none
        | [] => none
      else
        match parseNumber (c :: rest) with
        | some (q, rem) => some (JVal.jnum q, rem)
        | none => none

/-- Comma-separated array items, ending at `]`. -/
def parseArrItems : Nat → List Char → Option (List JVal × List Char)
  | 0, _ => none
  | fuel + 1, cs =>
    match parseVal fuel cs with
    | none => none
    | some (v, rem) =>
      match skipWs rem with
      | c :: rest =>
        if c = ',' then
          match parseArrItems fuel rest with
          | some (xs, rem2) => some (v :: xs, rem2)
          | none => none
        else if c = ']' then some ([v], rest)
        else none
      | [] => none

/-- Comma-separated object members, ending at the closing brace. -/
def parseObjItems : Nat → List Char → Option (List (String × JVal) × List Char)
  | 0, _ => none
  | fuel + 1, cs =>
    match skipWs cs with
    | c :: rest =>
      if c = '"' then
        match parseStringBody (rest.length + 1) rest with
        | none => none
        | some (key, rem) =>
          match skipWs rem with
          | c2 :: rest2 =>
            if c2 = ':' then
              match parseVal fuel rest2 with
              | none => none
              | some (v, rem2) =>
                match skipWs rem2 with
                | c3 :: rest3 =>
                  if c3 = ',' then
                    match parseObjItems fuel rest3 with
                    | some (kvs, rem3) => some ((String.mk key, v) :: kvs, rem3)
                    | none => none
                  else if c3 = rbrace then some ([(String.mk key, v)], rest3)
                  else none
                | [] => none
            else none
          | [] => none
      else none
    | [] => none

end

/-- Models `json.loads`: parse one JSON value with nothing but whitespace after it. -/
def json_loads (s : String) : Option JVal :=
  match parseVal (s.length + 1) s.toList with
  | some (v, rest) =>
    match skipWs rest with
    | [] => some v
    | _ :: _ => none
  | none => none

/-- Index of the first occurrence of a character. -/
def firstIdxOf (c : Char) : List Char → Option Nat
  | [] => none
  | x :: xs =>
    if x == c then some 0
    else
      match firstIdxOf c xs with
      | none => none
      | some k => some (k + 1)

/-- Index of the last occurrence of a character. -/
def lastIdxOf (c : Char) : List Char → Option Nat
  | [] => none
  | x :: xs =>
    match lastIdxOf c xs with
    | some k => some (k + 1)
    | none => if x == c then some 0 else none

/-- Models `re.search(r'\x7b.*\x7d', content, re.DOTALL)`: with a greedy `.*`
over the whole text, the leftmost match runs from the first opening brace
to the last closing brace, provided the latter comes after the former. -/
def greedyBraceSpan (content : String) : Option String :=
  let cs := content.toList
  match firstIdxOf lbrace cs, lastIdxOf rbrace cs with
  | some i, some j =>
    if i < j then some (String.mk ((cs.drop i).take (j - i + 1))) else none
  | _, _ => none

/-- The response-content handling of `call_deepseek_for_income_statement`
(lines 312–331 of `calculate_margins_llm.py`): parse the whole content as
JSON, else parse the greedy first-to-last-brace span; the diagnostics the
script prints before raising are folded into the error value. -/
def extract_json_object (content : String) : Except String JVal :=
  match json_loads content with
  | some v => Except.ok v
  | none =>
    match greedyBraceSpan content with
    | none =>
      Except.error
        ("Could not find a JSON object in DeepSeek response.\n" ++ content)
    | some sub =>
      match json_loads sub with
      | some v => Except.ok v
      | none =>
        Except.error ("Failed to parse extracted JSON substring.\n" ++ sub)

/-- The recovery procedure the specification describes: take the *first
balanced* brace block and parse it.  Defined from the spec's words, to be
compared with `extract_json_object`. -/
def takeBraceBlock : List Char → Nat → Option (List Char)
  | [], _ => none
  | c :: cs, depth =>
    if c = lbrace then
      match takeBraceBlock cs (depth + 1) with
      | some l => some (c :: l)
      | none => none
    else if c = rbrace then
      if depth = 1 then some [c]
      else if depth = 0 then none
      else
        match takeBraceBlock cs (depth - 1) with
        | some l => some (c :: l)
        | none => none
    else
      match takeBraceBlock cs depth with
      | some l => some (c :: l)
      | none => none

/-- First balanced `\x7b...\x7d` block of a string (spec-side definition). -/
def firstBalancedBlock (content : String) : Option String :=
  let rest := content.toList.dropWhile (fun c => !(c == lbrace))
  match rest with
  | [] => none
  | _ :: _ =>
    match takeBraceBlock rest 0 with
    | some l => some (String.mk l)
    | none => none

/-! ## Order lemmas for the lexicographic comparison -/

theorem charListLt_irrefl (l : List Char) : charListLt l l = false := by
  induction l with
  | nil => rfl
  | cons a al ih => simp [charListLt, ih]

theorem charListLt_trans {a b c : List Char} (h1 : charListLt a b = true)
    (h2 : charListLt b c = true) : charListLt a c = true := by
  induction a generalizing b c with
  | nil =>
    cases c with
    | nil =>
      cases b with
      | nil => exact h2
      | cons b0 bl => simp [charListLt] at h2
    | cons c0 cl => rfl
  | cons a0 al ih =>
    cases b with
    | nil => simp [charListLt] at h1
    | cons b0 bl =>
      cases c with
      | nil => simp [charListLt] at h2
      | cons c0 cl =>
        simp only [charListLt] at h1 h2 ⊢
        split at h1
        · split at h2
          · simp; omega
          · split at h2
            · exact absurd h2 (by simp)
            · have : a0.toNat < c0.toNat := by omega
              simp [this]
        · split at h1
          · exact absurd h1 (by simp)
          · split at h2
            · have : a0.toNat < c0.toNat := by omega
              simp [this]
            · split at h2
              · exact absurd h2 (by simp)
              · have hac : ¬ a0.toNat < c0.toNat := by omega
                have hca : ¬ c0.toNat < a0.toNat := by omega
                simp only [hac, hca, if_false]
                exact ih h1 h2

theorem charListLt_connex {a b : List Char} (h1 : charListLt a b = false)
    (h2 : charListLt b a = false) : a = b := by
  induction a generalizing b with
  | nil =>
    cases b with
    | nil => rfl
    | cons b0 bl => simp [charListLt] at h1
  | cons a0 al ih =>
    cases b with
    | nil => simp [charListLt] at h2
    | cons b0 bl =>
      simp only [charListLt] at h1 h2
      rcases Nat.lt_trichotomy a0.toNat b0.toNat with hlt | heq | hgt
      · rw [if_pos hlt] at h1
        simp at h1
      · have hnlt1 : ¬ a0.toNat < b0.toNat := by omega
        have hnlt2 : ¬ b0.toNat < a0.toNat := by omega
        rw [if_neg hnlt1, if_neg hnlt2] at h1
        rw [if_neg hnlt2, if_neg hnlt1] at h2
        have he' : a0 = b0 :=
          Char.eq_of_val_eq (UInt32.eq_of_toBitVec_eq (BitVec.eq_of_toNat_eq heq))
        rw [he', ih h1 h2]
      · rw [if_pos hgt] at h2
        simp at h2

theorem charListLt_asymm {a b : List Char} (h : charListLt a b = true) :
    charListLt b a = false := by
  by_contra hc
  have hba : charListLt b a = true := by
    cases hx : charListLt b a
    · exact absurd hx hc
    · rfl
  have := charListLt_trans h hba
  rw [charListLt_irrefl] at this
  exact absurd this (by simp)

theorem strLeB_refl (a : String) : strLeB a a = true := by
  simp [strLeB, strLtB, charListLt_irrefl]

theorem strLtB_le {a b : String} (h : strLtB a b = true) : strLeB a b = true := by
  simp only [strLeB, strLtB] at *
  rw [charListLt_asymm h]
  rfl

theorem strLeB_of_not {a b : String} (h : ¬ strLeB a b = true) :
    strLtB b a = true := by
  simp only [strLeB, Bool.not_eq_true] at h
  cases hx : strLtB b a
  · rw [hx] at h
    simp at h
  · rfl

theorem strLeB_trans {a b c : String} (h1 : strLeB a b = true)
    (h2 : strLeB b c = true) : strLeB a c = true := by
  simp only [strLeB, strLtB, Bool.not_eq_true'] at h1 h2 ⊢
  cases hx : charListLt c.toList a.toList
  · rfl
  · exfalso
    cases hy : charListLt a.toList b.toList
    · have hab := charListLt_connex hy h1
      rw [← hab] at h2
      rw [h2] at hx
      simp at hx
    · have := charListLt_trans hx hy
      rw [this] at h2
      simp at h2

theorem strLtB_of_lt_of_le {a b c : String} (h1 : strLtB a b = true)
    (h2 : strLeB b c = true) : strLtB a c = true := by
  simp only [strLeB, strLtB, Bool.not_eq_true'] at h1 h2 ⊢
  cases hy : charListLt b.toList c.toList
  · have hbc := charListLt_connex hy h2
    rw [← hbc]
    exact h1
  · exact charListLt_trans h1 hy

theorem strLtB_irrefl (a : String) : strLtB a a = false :=
  charListLt_irrefl a.toList

/-! ## The stable descending sort and its head -/

theorem insertDescKey_ne_nil {α : Type} (key : α → String) (x : α) (l : List α) :
    insertDescKey key x l ≠ [] := by
  cases l with
  | nil => simp [insertDescKey]
  | cons y ys =>
    unfold insertDescKey
    split <;> simp

theorem sortDescKey_eq_nil_iff {α : Type} (key : α → String) (l : List α) :
    sortDescKey key l = [] ↔ l = [] := by
  cases l with
  | nil => simp [sortDescKey]
  | cons x xs =>
    constructor
    · intro h
      exact absurd h (insertDescKey_ne_nil key x (sortDescKey key xs))
    · intro h
      exact absurd h (by simp)

theorem head?_insertDescKey {α : Type} (key : α → String) (x : α) (l : List α) :
    (insertDescKey key x l).head? =
      some (match l.head? with
            | none => x
            | some y => if strLeB (key y) (key x) then x else y) := by
  cases l with
  | nil => rfl
  | cons y ys =>
    unfold insertDescKey
    split <;> simp_all

theorem pickFirstMaxKey_cons_none {α : Type} {key : α → String} {x : α}
    {xs : List α} (hx : pickFirstMaxKey key xs = none) :
    pickFirstMaxKey key (x :: xs) = some x := by
  unfold pickFirstMaxKey
  rw [hx]

theorem pickFirstMaxKey_cons_some {α : Type} {key : α → String} {x y : α}
    {xs : List α} (hx : pickFirstMaxKey key xs = some y) :
    pickFirstMaxKey key (x :: xs) =
      (if strLeB (key y) (key x) then some x else some y) := by
  unfold pickFirstMaxKey
  rw [hx]

theorem sortDescKey_head_eq_pickFirstMax {α : Type} (key : α → String) (l : List α) :
    (sortDescKey key l).head? = pickFirstMaxKey key l := by
  induction l with
  | nil => rfl
  | cons x xs ih =>
    show (insertDescKey key x (sortDescKey key xs)).head? = _
    rw [head?_insertDescKey]
    cases h : (sortDescKey key xs).head? with
    | none =>
      rw [h] at ih
      rw [pickFirstMaxKey_cons_none ih.symm]
    | some y =>
      rw [h] at ih
      rw [pickFirstMaxKey_cons_some ih.symm]
      show some (if strLeB (key y) (key x) then x else y) = _
      split <;> rfl

theorem pickFirstMaxKey_eq_none_iff {α : Type} (key : α → String) (l : List α) :
    pickFirstMaxKey key l = none ↔ l = [] := by
  cases l with
  | nil => simp [pickFirstMaxKey]
  | cons x xs =>
    constructor
    · intro h
      cases hx : pickFirstMaxKey key xs
      · rw [pickFirstMaxKey_cons_none hx] at h
        simp at h
      · rw [pickFirstMaxKey_cons_some hx] at h
        split at h <;> simp at h
    · intro h
      simp at h

theorem pickFirstMaxKey_mem {α : Type} (key : α → String) (l : List α) (c : α)
    (h : pickFirstMaxKey key l = some c) : c ∈ l := by
  induction l generalizing c with
  | nil => simp [pickFirstMaxKey] at h
  | cons x xs ih =>
    cases hx : pickFirstMaxKey key xs
    · rw [pickFirstMaxKey_cons_none hx] at h
      have hxc : x = c := by simpa using h
      simp [hxc]
    · rename_i y
      rw [pickFirstMaxKey_cons_some hx] at h
      by_cases hle : strLeB (key y) (key x) = true
      · rw [if_pos hle] at h
        have hxc : x = c := by simpa using h
        simp [hxc]
      · rw [if_neg hle] at h
        have hyc : y = c := by simpa using h
        exact List.mem_cons_of_mem x (ih c (hyc ▸ hx))

theorem pickFirstMaxKey_max {α : Type} (key : α → String) (l : List α) (c : α)
    (h : pickFirstMaxKey key l = some c) :
    ∀ f ∈ l, strLeB (key f) (key c) = true := by
  induction l generalizing c with
  | nil => simp [pickFirstMaxKey] at h
  | cons x xs ih =>
    intro f hf
    cases hx : pickFirstMaxKey key xs
    · rw [pickFirstMaxKey_cons_none hx] at h
      have hxs : xs = [] := (pickFirstMaxKey_eq_none_iff key xs).mp hx
      subst hxs
      have hxc : x = c := by simpa using h
      subst hxc
      rcases List.mem_cons.mp hf with h1 | h1
      · subst h1
        exact strLeB_refl _
      · simp at h1
    · rename_i y
      rw [pickFirstMaxKey_cons_some hx] at h
      by_cases hle : strLeB (key y) (key x) = true
      · rw [if_pos hle] at h
        have hxc : x = c := by simpa using h
        subst hxc
        rcases List.mem_cons.mp hf with h1 | h1
        · subst h1
          exact strLeB_refl _
        · exact strLeB_trans (ih y hx f h1) hle
      · rw [if_neg hle] at h
        have hyc : y = c := by simpa using h
        subst hyc
        rcases List.mem_cons.mp hf with h1 | h1
        · subst h1
          exact strLtB_le (strLeB_of_not hle)
        · exact ih _ hx f h1

theorem pickFirstMaxKey_first {α : Type} (key : α → String) (l : List α) (c : α)
    (h : pickFirstMaxKey key l = some c) :
    ∃ l1 l2, l = l1 ++ c :: l2 ∧ ∀ f ∈ l1, strLtB (key f) (key c) = true := by
  induction l generalizing c with
  | nil => simp [pickFirstMaxKey] at h
  | cons x xs ih =>
    cases hx : pickFirstMaxKey key xs
    · rw [pickFirstMaxKey_cons_none hx] at h
      have hxc : x = c := by simpa using h
      subst hxc
      exact ⟨[], xs, rfl, by simp⟩
    · rename_i y
      rw [pickFirstMaxKey_cons_some hx] at h
      by_cases hle : strLeB (key y) (key x) = true
      · rw [if_pos hle] at h
        have hxc : x = c := by simpa using h
        subst hxc
        exact ⟨[], xs, rfl, by simp⟩
      · rw [if_neg hle] at h
        have hyc : y = c := by simpa using h
        subst hyc
        obtain ⟨l1, l2, hsplit, hlt⟩ := ih _ hx
        refine ⟨x :: l1, l2, by simp [hsplit], ?_⟩
        intro f hf
        rcases List.mem_cons.mp hf with hfx | hfl1
        · subst hfx
          exact strLeB_of_not hle
        · exact hlt f hfl1

/-! ## C3: recency selection among surviving candidates -/

/-- C3: among the candidate facts surviving at the matched stage, the
resolver takes the head of the stable descending sort by filed date: the
chosen fact is one of the candidates, carries the lexicographically
greatest filed key (`filed` defaulting to `"0000-00-00"` when absent), is
the first candidate in flattened order attaining that maximum (the
descending sort keeps equal keys in their original order), and a fact
with no filed date is never chosen while any candidate carries a genuine
(lexicographically greater) filed date. -/
theorem chosen_most_recently_filed (cands : List Fact) (chosen : Fact)
    (h : (sortDescKey filedKey cands).head? = some chosen) :
    chosen ∈ cands ∧
    (∀ f ∈ cands, strLeB (filedKey f) (filedKey chosen) = true) ∧
    (∃ l1 l2, cands = l1 ++ chosen :: l2 ∧
      ∀ f ∈ l1, strLtB (filedKey f) (filedKey chosen) = true) ∧
    (∀ f ∈ cands, ∀ d, f.filed = some d → strLtB "0000-00-00" d = true →
      chosen.filed ≠ none) := by
  rw [sortDescKey_head_eq_pickFirstMax] at h
  refine ⟨pickFirstMaxKey_mem _ _ _ h, pickFirstMaxKey_max _ _ _ h,
    pickFirstMaxKey_first _ _ _ h, ?_⟩
  intro f hf d hd hlt hnone
  have hle := pickFirstMaxKey_max _ _ _ h f hf
  have hkc : filedKey chosen = "0000-00-00" := by simp [filedKey, hnone]
  have hkf : filedKey f = d := by simp [filedKey, hd]
  rw [hkf, hkc] at hle
  have hself := strLtB_of_lt_of_le hlt hle
  rw [strLtB_irrefl] at hself
  exact absurd hself (by simp)

/-- An undated fact (no `filed` key), for the C3 witness. -/
def c3Undated : Fact := ⟨some "2023-09-30", some "10-K", some "FY", none, some 1, none⟩

/-- A dated fact filed on 2023-11-01, for the C3 witness. -/
def c3Dated : Fact :=
  ⟨some "2023-09-30", some "10-K", some "FY", some "2023-11-01", some 2, none⟩

/-- C3 witness: on a concrete two-fact candidate list, the dated fact is
chosen over the earlier undated one. -/
theorem chosen_most_recently_filed_witness :
    c3Dated ∈ [c3Undated, c3Dated] ∧
    (∀ f ∈ [c3Undated, c3Dated], strLeB (filedKey f) (filedKey c3Dated) = true) ∧
    (∃ l1 l2, [c3Undated, c3Dated] = l1 ++ c3Dated :: l2 ∧
      ∀ f ∈ l1, strLtB (filedKey f) (filedKey c3Dated) = true) ∧
    (∀ f ∈ [c3Undated, c3Dated], ∀ d, f.filed = some d →
      strLtB "0000-00-00" d = true → c3Dated.filed ≠ none) :=
  chosen_most_recently_filed [c3Undated, c3Dated] c3Dated (by rfl)

/-! ## C1: the five-stage progressive relaxation, spec side -/

/-- Spec side: "form type indicates the annual-filing family". -/
def annualFamilyForm (f : Fact) : Bool :=
  strContains (f.form.getD "") "10-K"

/-- Spec side: "fiscal-period tag indicates full-year (or is absent)";
the full-year tags of the data are `"FY"` and its variant `"Y"`. -/
def fullYearOrAbsent (f : Fact) : Bool :=
  match f.fp with
  | none => true
  | some fp => fp == "FY" || fp == "Y"

/-- Spec side: the calendar year of a period-end date string (its leading
four characters). -/
def calendarYear? (d : String) : Option Nat :=
  if d.length < 4 then none else strToNat? (strTake d 4)

/-- Spec Stage A: period end matches, annual-filing family, full-year or
absent fiscal-period tag. -/
def specStageA (flat : List Fact) (t : String) : List Fact :=
  flat.filter fun f => f.endDate == some t && (annualFamilyForm f && fullYearOrAbsent f)

/-- Spec Stage B: Stage A with the fiscal-period constraint dropped. -/
def specStageB (flat : List Fact) (t : String) : List Fact :=
  flat.filter fun f => f.endDate == some t && annualFamilyForm f

/-- Spec Stage C: period end unconstrained, form and full-year kept. -/
def specStageC (flat : List Fact) : List Fact :=
  flat.filter fun f => annualFamilyForm f && fullYearOrAbsent f

/-- Spec Stage D: form-only constraint. -/
def specStageD (flat : List Fact) : List Fact :=
  flat.filter fun f => annualFamilyForm f

/-- Spec Stage E: any fact whose period-end calendar year equals the
target's calendar year. -/
def specStageE (flat : List Fact) (targetYear : Nat) : List Fact :=
  flat.filter fun f =>
    match f.endDate with
    | none => false
    | some e => calendarYear? e == some targetYear

/-- Spec side: "stopping at the first stage producing a non-empty candidate set". -/
def firstNonempty5 (a b c d e : List Fact) : List Fact :=
  if a.isEmpty then
    if b.isEmpty then
      if c.isEmpty then
        if d.isEmpty then e else d
      else c
    else b
  else a

theorem filter_facts_eq_specStageA (flat : List Fact) (t : String) :
    filter_facts flat (some t) true true = specStageA flat t := by
  unfold filter_facts specStageA
  apply List.filter_congr
  intro f _
  simp [annualFamilyForm, fullYearOrAbsent, Bool.and_assoc]

theorem filter_facts_eq_specStageB (flat : List Fact) (t : String) :
    filter_facts flat (some t) true false = specStageB flat t := by
  unfold filter_facts specStageB
  apply List.filter_congr
  intro f _
  simp [annualFamilyForm]

theorem filter_facts_eq_specStageC (flat : List Fact) :
    filter_facts flat none true true = specStageC flat := by
  unfold filter_facts specStageC
  apply List.filter_congr
  intro f _
  simp [annualFamilyForm, fullYearOrAbsent]

theorem filter_facts_eq_specStageD (flat : List Fact) :
    filter_facts flat none true false = specStageD flat := by
  unfold filter_facts specStageD
  apply List.filter_congr
  intro f _
  simp [annualFamilyForm]

theorem stage5_eq_specStageE (flat : List Fact) (ty : Nat) :
    stage5_facts flat ty = specStageE flat ty := by
  unfold stage5_facts specStageE
  apply List.filter_congr
  intro f _
  cases hE : f.endDate with
  | none => rfl
  | some e =>
    simp only [calendarYear?]
    by_cases hlen : e.length < 4
    · simp [hlen]
    · have h1 : (e == "") = false := by
        rw [beq_eq_false_iff_ne]
        intro he
        rw [he] at hlen
        simp at hlen
      simp only [h1, hlen, decide_eq_true_eq, if_false, Bool.false_or]
      cases hy : strToNat? (strTake e 4) with
      | none => simp [hy]
      | some y => simp [hy]

/-- C1: for a present target period end whose leading four characters
parse as the target calendar year, the candidate set of `pick_fact_value`
is the first non-empty of the five progressively-relaxed stages, tried in
the fixed order A, B, C, D, E; in particular, when Stages A through D are
all empty, the Stage E (calendar-year-only) candidates are still used. -/
theorem five_stage_progressive_relaxation (flat : List Fact) (t : String) (ty : Nat)
    (h : strToNat? (strTake t 4) = some ty) :
    candidatesFor flat (some t) =
      Except.ok (firstNonempty5 (specStageA flat t) (specStageB flat t)
        (specStageC flat) (specStageD flat) (specStageE flat ty)) ∧
    (specStageA flat t = [] → specStageB flat t = [] → specStageC flat = [] →
      specStageD flat = [] →
      candidatesFor flat (some t) = Except.ok (specStageE flat ty)) := by
  have hmain : candidatesFor flat (some t) =
      Except.ok (firstNonempty5 (specStageA flat t) (specStageB flat t)
        (specStageC flat) (specStageD flat) (specStageE flat ty)) := by
    simp only [candidatesFor, firstNonempty5, filter_facts_eq_specStageA,
      filter_facts_eq_specStageB, filter_facts_eq_specStageC,
      filter_facts_eq_specStageD, h, stage5_eq_specStageE]
    by_cases hA : (specStageA flat t).isEmpty
    · by_cases hB : (specStageB flat t).isEmpty
      · by_cases hC : (specStageC flat).isEmpty
        · by_cases hD : (specStageD flat).isEmpty
          · simp [hA, hB, hC, hD]
          · simp [hA, hB, hC, hD]
        · simp [hA, hB, hC]
      · simp [hA, hB]
    · simp [hA]
  refine ⟨hmain, ?_⟩
  intro hA hB hC hD
  rw [hmain]
  simp [firstNonempty5, hA, hB, hC, hD]

/-- A quarterly fact whose only link to the 2023 target is its calendar
year, for the C1 witness. -/
def c1QuarterFact : Fact :=
  ⟨some "2023-06-30", some "10-Q", some "Q2", some "2023-08-01", some 50, none⟩

/-- C1 witness: with one 10-Q fact, Stages A–D are empty and the Stage E
candidate set (the quarterly fact, matched on calendar year alone) is
returned. -/
theorem five_stage_progressive_relaxation_witness :
    candidatesFor [c1QuarterFact] (some "2023-12-31") =
      Except.ok (specStageE [c1QuarterFact] 2023) ∧
    specStageE [c1QuarterFact] 2023 = [c1QuarterFact] :=
  ⟨(five_stage_progressive_relaxation [c1QuarterFact] "2023-12-31" 2023 (by rfl)).2
      (by rfl) (by rfl) (by rfl) (by rfl),
   by rfl⟩

/-! ## C2: concept fallback ordering -/

/-- C2: concept names are tried strictly in list order, stopping at
the first that yields a usable value: when the fact store has no entry for
the first and third of three candidate names and the second resolves to a
usable value `v`, `pick_fact_value` returns `v` paired with the second
name — never null, never the first or third name. -/
theorem concept_fallback_second_name
    (us_gaap : List (String × ConceptObj)) (n1 n2 n3 : String)
    (t : Option String) (v : Rat)
    (h1 : lookupConcept us_gaap n1 = none)
    (h3 : lookupConcept us_gaap n3 = none)
    (h2 : resolveConcept us_gaap n2 t = Except.ok (some v)) :
    pick_fact_value us_gaap [n1, n2, n3] t = Except.ok (some v, some n2) := by
  have e1 : resolveConcept us_gaap n1 t = Except.ok none := by
    unfold resolveConcept
    rw [h1]
  simp only [pick_fact_value]
  rw [e1, h2]

/-- A usable fact stored under the second candidate name, for the C2
witness. -/
def c2Fact : Fact :=
  ⟨some "2023-09-30", some "10-K", some "FY", some "2023-11-01", some 100, none⟩

/-- Fact store containing facts only for concept name `"B"`. -/
def c2Store : List (String × ConceptObj) := [("B", [("USD", [c2Fact])])]

/-- C2 witness: with facts only under `"B"`, the middle of three candidate
names wins. -/
theorem concept_fallback_second_name_witness :
    pick_fact_value c2Store ["A", "B", "C"] none = Except.ok (some 100, some "B") :=
  concept_fallback_second_name c2Store "A" "B" "C" none 100 (by rfl) (by rfl) (by rfl)

/-! ## C6: derived values never clobber explicit ones -/

/-- C6: the gross-profit and EBITDA derivation steps of `main` never
replace an explicitly resolved value: with a non-null resolver result the
(value, concept) pair passes through unchanged, and only with a null
result (and both operands present) is the value derived, with a
`"Derived: ..."` provenance label in place of a concept name. -/
theorem derived_value_non_clobber :
    (∀ (v : Rat) (c : Option String) (ns cor : Option Rat),
      deriveGrossProfit (some v) c ns cor = (some v, c)) ∧
    (∀ (c : Option String) (a b : Rat),
      deriveGrossProfit none c (some a) (some b) =
        (some (a - b), some "Derived: net_sales - cost_of_revenue")) ∧
    (∀ (v : Rat) (c : Option String) (oi da : Option Rat),
      deriveEbitda (some v) c oi da = (some v, c)) ∧
    (∀ (c : Option String) (a b : Rat),
      deriveEbitda none c (some a) (some b) =
        (some (a + b), some "Derived: operating_income + depreciation_and_amortization")) := by
  refine ⟨?_, ?_, ?_, ?_⟩
  · intro v c ns cor
    rfl
  · intro c a b
    rfl
  · intro v c oi da
    rfl
  · intro c a b
    rfl

/-! ## C7: unavailability is not an error -/

/-- C7: when no concept name yields a usable value (every loop
iteration falls through without raising), `pick_fact_value` returns
`(None, None)` rather than raising, and a fully-unresolved financials
record propagates through `compute_margins` as all-null margins. -/
theorem unresolved_returns_none_none
    (us_gaap : List (String × ConceptObj)) (names : List String)
    (t : Option String)
    (h : ∀ n ∈ names, resolveConcept us_gaap n t = Except.ok none) :
    pick_fact_value us_gaap names t = Except.ok (none, none) ∧
    compute_margins ⟨none, none, none, none, none⟩ = ⟨none, none, none, none⟩ := by
  refine ⟨?_, rfl⟩
  induction names with
  | nil => rfl
  | cons n rest ih =>
    have hn := h n (by simp)
    simp only [pick_fact_value]
    rw [hn]
    exact ih fun m hm => h m (by simp [hm])

/-- C7 witness: an empty fact store resolves a one-name candidate list to
`(None, None)`. -/
theorem unresolved_returns_none_none_witness :
    pick_fact_value [] ["Revenues"] none = Except.ok (none, none) ∧
    compute_margins ⟨none, none, none, none, none⟩ = ⟨none, none, none, none⟩ :=
  unresolved_returns_none_none [] ["Revenues"] none
    (by
      intro n hn
      rw [List.mem_singleton] at hn
      subst hn
      rfl)

/-! ## C8: margin calculator null- and zero-safety -/

theorem safe_div_eq_none_iff (num den : Option Rat) :
    safe_div num den = none ↔ num = none ∨ den = none ∨ den = some 0 := by
  cases num with
  | none => simp [safe_div]
  | some n =>
    cases den with
    | none => simp [safe_div]
    | some d =>
      by_cases hd : d = 0 <;> simp [safe_div, hd]

theorem safe_div_some (n d : Rat) (hd : d ≠ 0) :
    safe_div (some n) (some d) = some (n / d) := by
  simp [safe_div, hd]

/-- C8: `compute_margins` is a total function returning exactly the
four null-safe ratios against net sales: each margin is null exactly when
its numerator is null or net sales is null or zero, and otherwise equals
the exact quotient. -/
theorem compute_margins_safe (fin : Financials) :
    ((compute_margins fin).net_sales_margin = none ↔
      fin.net_income = none ∨ fin.net_sales = none ∨ fin.net_sales = some 0) ∧
    (∀ a b : Rat, fin.net_income = some a → fin.net_sales = some b → b ≠ 0 →
      (compute_margins fin).net_sales_margin = some (a / b)) ∧
    ((compute_margins fin).gross_margin = none ↔
      fin.gross_profit = none ∨ fin.net_sales = none ∨ fin.net_sales = some 0) ∧
    (∀ a b : Rat, fin.gross_profit = some a → fin.net_sales = some b → b ≠ 0 →
      (compute_margins fin).gross_margin = some (a / b)) ∧
    ((compute_margins fin).operating_margin = none ↔
      fin.operating_income = none ∨ fin.net_sales = none ∨ fin.net_sales = some 0) ∧
    (∀ a b : Rat, fin.operating_income = some a → fin.net_sales = some b → b ≠ 0 →
      (compute_margins fin).operating_margin = some (a / b)) ∧
    ((compute_margins fin).ebitda_margin = none ↔
      fin.ebitda = none ∨ fin.net_sales = none ∨ fin.net_sales = some 0) ∧
    (∀ a b : Rat, fin.ebitda = some a → fin.net_sales = some b → b ≠ 0 →
      (compute_margins fin).ebitda_margin = some (a / b)) := by
  refine ⟨safe_div_eq_none_iff _ _, ?_, safe_div_eq_none_iff _ _, ?_,
    safe_div_eq_none_iff _ _, ?_, safe_div_eq_none_iff _ _, ?_⟩ <;>
    (intro a b ha hb hb0
     show safe_div _ _ = _
     rw [ha, hb]
     exact safe_div_some a b hb0)

/-- C8 witness: zero net sales yields a null net-sales margin (no division
fault), and explicit figures yield the exact ratios. -/
theorem compute_margins_safe_witness :
    (compute_margins ⟨some 0, some 4, some 3, some 5, some 6⟩).net_sales_margin = none ∧
    (compute_margins ⟨some 1000, some 400, some 200, some 100, some 250⟩).gross_margin =
      some ((400 : Rat) / 1000) :=
  ⟨(compute_margins_safe ⟨some 0, some 4, some 3, some 5, some 6⟩).1.mpr
      (Or.inr (Or.inr rfl)),
   (compute_margins_safe ⟨some 1000, some 400, some 200, some 100, some 250⟩).2.2.2.1
      400 1000 rfl rfl (by norm_num)⟩

/-! ## Filing locator lemmas -/

theorem mostRecent_mem {l : List Candidate} {c : Candidate}
    (h : mostRecent l = some c) : c ∈ l := by
  unfold mostRecent at h
  rw [sortDescKey_head_eq_pickFirstMax] at h
  exact pickFirstMaxKey_mem _ _ _ h

theorem mostRecent_max {l : List Candidate} {c : Candidate}
    (h : mostRecent l = some c) :
    ∀ c' ∈ l, strLeB c'.report_date c.report_date = true := by
  unfold mostRecent at h
  rw [sortDescKey_head_eq_pickFirstMax] at h
  exact pickFirstMaxKey_max _ _ _ h

theorem mostRecent_isSome {l : List Candidate} (h : l ≠ []) :
    ∃ c, mostRecent l = some c := by
  unfold mostRecent
  rw [sortDescKey_head_eq_pickFirstMax]
  cases hx : pickFirstMaxKey Candidate.report_date l with
  | none => exact absurd ((pickFirstMaxKey_eq_none_iff _ _).mp hx) h
  | some c => exact ⟨c, rfl⟩

/-! ## C4: nearest-prior-year fallback -/

/-- C4: with a target year present and no candidate matching it
exactly, the locator returns the most recent (by period-end date)
candidate among those with year ≤ target; only when that set is empty
does it fall back to the most recent candidate overall. -/
theorem nearest_prior_year_fallback
    (entries : List FilingEntry) (y : Nat) (cands : List Candidate)
    (hb : buildCandidates entries = Except.ok cands)
    (hex : cands.filter (fun c => c.year == y) = []) :
    ((cands.filter fun c => decide (c.year ≤ y)) ≠ [] →
      ∃ c, locate10k entries (some y) = Except.ok c ∧ c ∈ cands ∧ c.year ≤ y ∧
        ∀ c' ∈ cands, c'.year ≤ y → strLeB c'.report_date c.report_date = true) ∧
    ((cands.filter fun c => decide (c.year ≤ y)) = [] → cands ≠ [] →
      ∃ c, locate10k entries (some y) = Except.ok c ∧ c ∈ cands ∧
        ∀ c' ∈ cands, strLeB c'.report_date c.report_date = true) := by
  constructor
  · intro hbef
    obtain ⟨c, hc⟩ := mostRecent_isSome hbef
    have hcm := mostRecent_mem hc
    have hmax := mostRecent_max hc
    have hne : cands ≠ [] := by
      intro hnil
      rw [hnil] at hbef
      simp at hbef
    have hcmem : c ∈ cands := (List.mem_filter.mp hcm).1
    have hcyear : c.year ≤ y := by
      have := (List.mem_filter.mp hcm).2
      simpa using this
    refine ⟨c, ?_, hcmem, hcyear, ?_⟩
    · have hc2 : cands.isEmpty = false := by simpa [List.isEmpty_iff] using hne
      have hb2 : ((cands.filter fun c => decide (c.year ≤ y)).isEmpty) = false := by
        simpa [List.isEmpty_iff] using hbef
      simp [locate10k, selectCandidate, hb, hc2, hex, hb2, hc]
    · intro c' hc' hy'
      exact hmax c' (List.mem_filter.mpr ⟨hc', by simpa using hy'⟩)
  · intro hbef hne
    obtain ⟨c, hc⟩ := mostRecent_isSome hne
    refine ⟨c, ?_, mostRecent_mem hc, mostRecent_max hc⟩
    have hc2 : cands.isEmpty = false := by simpa [List.isEmpty_iff] using hne
    have hb2 : ((cands.filter fun c => decide (c.year ≤ y)).isEmpty) = true := by
      simp [hbef]
    simp [locate10k, selectCandidate, hb, hc2, hex, hb2, hc]

/-- Filing history rows for the C4 witness: 10-K filings ending in 2020,
2021 and 2023. -/
def c4Entries : List FilingEntry :=
  [⟨"10-K", "acc2020", "doc", "2020-12-31"⟩,
   ⟨"10-K", "acc2021", "doc", "2021-12-31"⟩,
   ⟨"10-K", "acc2023", "doc", "2023-12-31"⟩]

/-- The candidates built from `c4Entries`. -/
def c4Cands : List Candidate :=
  [⟨"acc2020", "doc", "2020-12-31", 2020⟩,
   ⟨"acc2021", "doc", "2021-12-31", 2021⟩,
   ⟨"acc2023", "doc", "2023-12-31", 2023⟩]

/-- C4 witness: target 2022 over years {2020, 2021, 2023} returns the
2021 filing, never the 2023 one. -/
theorem nearest_prior_year_fallback_witness :
    locate10k c4Entries (some 2022) =
      Except.ok ⟨"acc2021", "doc", "2021-12-31", 2021⟩ ∧
    (∃ c, locate10k c4Entries (some 2022) = Except.ok c ∧ c ∈ c4Cands ∧
      c.year ≤ 2022 ∧
      ∀ c' ∈ c4Cands, c'.year ≤ 2022 →
        strLeB c'.report_date c.report_date = true) :=
  ⟨by rfl,
   (nearest_prior_year_fallback c4Entries 2022 c4Cands (by rfl) (by rfl)).1
     (by decide)⟩

/-! ## C5: exact-year selection, invariant under joint permutation -/

/-- A row survives the candidate loop without raising: if its form is
`"10-K"` and its report date non-empty, the year prefix parses. -/
def entryParses (e : FilingEntry) : Prop :=
  e.form = "10-K" → e.rdate ≠ "" → (strToNat? (strTake e.rdate 4)).isSome

instance (e : FilingEntry) : Decidable (entryParses e) := by
  unfold entryParses
  infer_instance

/-- The candidate (if any) one row contributes, as a pure function. -/
def candidateOf? (e : FilingEntry) : Option Candidate :=
  if e.form == "10-K" then
    if e.rdate == "" then none
    else
      match strToNat? (strTake e.rdate 4) with
      | none => none
      | some yr => some ⟨e.acc, e.doc, e.rdate, yr⟩
  else none

theorem buildCandidates_eq_filterMap (l : List FilingEntry)
    (h : ∀ e ∈ l, entryParses e) :
    buildCandidates l = Except.ok (l.filterMap candidateOf?) := by
  induction l with
  | nil => rfl
  | cons e rest ih =>
    have hrest := ih fun e' he' => h e' (by simp [he'])
    by_cases hf : (e.form == "10-K") = true
    · by_cases hr : (e.rdate == "") = true
      · simp only [buildCandidates, hf, hr, if_true, List.filterMap_cons,
          candidateOf?, if_false]
        rw [hrest]
      · have hp : (strToNat? (strTake e.rdate 4)).isSome := by
          apply h e (by simp)
          · simpa using hf
          · simpa using hr
        obtain ⟨yr, hyr⟩ := Option.isSome_iff_exists.mp hp
        simp only [buildCandidates, hf, hr, if_true, if_false, hyr,
          List.filterMap_cons, candidateOf?]
        simp [hrest]
    · simp only [buildCandidates, hf, if_false, List.filterMap_cons,
        candidateOf?]
      simp [hrest, hf]

theorem locate10k_exact_singleton
    {entries : List FilingEntry} {cands : List Candidate} {y : Nat} {c : Candidate}
    (hb : buildCandidates entries = Except.ok cands)
    (hexact : cands.filter (fun c' => c'.year == y) = [c]) :
    locate10k entries (some y) = Except.ok c := by
  have hcne : cands ≠ [] := by
    intro hnil
    rw [hnil] at hexact
    simp at hexact
  have hc2 : cands.isEmpty = false := by simpa [List.isEmpty_iff] using hcne
  simp [locate10k, selectCandidate, hb, hc2, hexact, mostRecent, sortDescKey, insertDescKey]

/-- C5: when exactly one candidate's period-end year equals the target
year, the locator returns that candidate, and the result is invariant
under any joint permutation of the zipped filing-history rows. -/
theorem filing_selection_deterministic
    (l1 l2 : List FilingEntry) (hperm : l1.Perm l2)
    (hok : ∀ e ∈ l1, entryParses e) (y : Nat) (c : Candidate)
    (hexact : (l1.filterMap candidateOf?).filter (fun c' => c'.year == y) = [c]) :
    locate10k l1 (some y) = Except.ok c ∧ locate10k l2 (some y) = Except.ok c := by
  have hok2 : ∀ e ∈ l2, entryParses e := fun e he => hok e (hperm.mem_iff.mpr he)
  have hb1 := buildCandidates_eq_filterMap l1 hok
  have hb2 := buildCandidates_eq_filterMap l2 hok2
  have hpermc : (l1.filterMap candidateOf?).Perm (l2.filterMap candidateOf?) :=
    hperm.filterMap _
  have hexact2 : (l2.filterMap candidateOf?).filter (fun c' => c'.year == y) = [c] := by
    have hpf := (List.Perm.filter (fun c' => c'.year == y) hpermc).symm
    rw [hexact] at hpf
    exact List.perm_singleton.mp hpf
  exact ⟨locate10k_exact_singleton hb1 hexact, locate10k_exact_singleton hb2 hexact2⟩

/-- Permuted filing histories for the C5 witness. -/
def c5EntriesA : List FilingEntry :=
  [⟨"10-K", "acc2020", "doc", "2020-12-31"⟩,
   ⟨"10-K", "acc2021", "doc", "2021-12-31"⟩]

/-- Rows of `c5EntriesA` in the opposite order. -/
def c5EntriesB : List FilingEntry :=
  [⟨"10-K", "acc2021", "doc", "2021-12-31"⟩,
   ⟨"10-K", "acc2020", "doc", "2020-12-31"⟩]

/-- C5 witness: both orderings of the same history return the unique
2021 filing. -/
theorem filing_selection_deterministic_witness :
    locate10k c5EntriesA (some 2021) =
      Except.ok ⟨"acc2021", "doc", "2021-12-31", 2021⟩ ∧
    locate10k c5EntriesB (some 2021) =
      Except.ok ⟨"acc2021", "doc", "2021-12-31", 2021⟩ :=
  filing_selection_deterministic c5EntriesA c5EntriesB (by decide)
    (by decide) 2021 ⟨"acc2021", "doc", "2021-12-31", 2021⟩ (by rfl)

/-! ## C10: exact form match in the locator vs substring match in the resolver -/

theorem buildCandidates_sourceForm
    (entries : List FilingEntry) (cs : List Candidate)
    (hb : buildCandidates entries = Except.ok cs) :
    ∀ c ∈ cs, ∃ e ∈ entries, e.form = "10-K" ∧
      c.accession_number = e.acc ∧ c.report_date = e.rdate := by
  induction entries generalizing cs with
  | nil =>
    simp only [buildCandidates] at hb
    have : cs = [] := by
      cases hb
      rfl
    subst this
    simp
  | cons e rest ih =>
    by_cases hf : (e.form == "10-K") = true
    · by_cases hr : (e.rdate == "") = true
      · rw [show buildCandidates (e :: rest) = buildCandidates rest by
          simp [buildCandidates, hf, hr]] at hb
        intro c hc
        obtain ⟨e', he', h1, h2, h3⟩ := ih cs hb c hc
        exact ⟨e', by simp [he'], h1, h2, h3⟩
      · cases hy : strToNat? (strTake e.rdate 4) with
        | none =>
          rw [show buildCandidates (e :: rest) =
              Except.error "ValueError: invalid year in reportDate" by
            simp [buildCandidates, hf, hr, hy]] at hb
          exact absurd hb (by simp)
        | some yr =>
          cases hrest : buildCandidates rest with
          | error msg =>
            rw [show buildCandidates (e :: rest) = Except.error msg by
              simp [buildCandidates, hf, hr, hy, hrest]] at hb
            exact absurd hb (by simp)
          | ok cs' =>
            rw [show buildCandidates (e :: rest) =
                Except.ok (⟨e.acc, e.doc, e.rdate, yr⟩ :: cs') by
              simp [buildCandidates, hf, hr, hy, hrest]] at hb
            have hcs : cs = ⟨e.acc, e.doc, e.rdate, yr⟩ :: cs' := by
              cases hb
              rfl
            subst hcs
            intro c hc
            rcases List.mem_cons.mp hc with hc1 | hc1
            · subst hc1
              exact ⟨e, by simp, by simpa using hf, rfl, rfl⟩
            · obtain ⟨e', he', h1, h2, h3⟩ := ih cs' hrest c hc1
              exact ⟨e', by simp [he'], h1, h2, h3⟩
    · rw [show buildCandidates (e :: rest) = buildCandidates rest by
        simp [buildCandidates, hf]] at hb
      intro c hc
      obtain ⟨e', he', h1, h2, h3⟩ := ih cs hb c hc
      exact ⟨e', by simp [he'], h1, h2, h3⟩

theorem locate10k_eq_select {entries : List FilingEntry} {cands : List Candidate}
    (hb : buildCandidates entries = Except.ok cands) (y? : Option Nat) :
    locate10k entries y? = selectCandidate cands y? := by
  unfold locate10k
  rw [hb]

theorem selectCandidate_result_mem
    (cands : List Candidate) (y? : Option Nat) (c : Candidate)
    (h : selectCandidate cands y? = Except.ok c) : c ∈ cands := by
  unfold selectCandidate at h
  by_cases hce : cands.isEmpty = true
  · rw [if_pos hce] at h
    simp at h
  · rw [if_neg hce] at h
    cases y? with
    | none =>
      cases hm : mostRecent cands with
      | none =>
        rw [hm] at h
        simp at h
      | some c0 =>
        rw [hm] at h
        have hc0 : c0 = c := by
          cases h
          rfl
        subst hc0
        exact mostRecent_mem hm
    | some y =>
      simp only at h
      by_cases hex : ((cands.filter fun c' => c'.year == y).isEmpty) = true
      · rw [hex] at h
        simp only [Bool.not_true, if_false] at h
        by_cases hbef : ((cands.filter fun c' => decide (c'.year ≤ y)).isEmpty) = true
        · rw [hbef] at h
          simp only [Bool.not_true, if_false] at h
          cases hm : mostRecent cands with
          | none =>
            rw [hm] at h
            simp at h
          | some c0 =>
            rw [hm] at h
            have hc0 : c0 = c := by
              cases h
              rfl
            subst hc0
            exact mostRecent_mem hm
        · have hbef' : ((cands.filter fun c' => decide (c'.year ≤ y)).isEmpty) = false := by
            simpa using hbef
          rw [hbef'] at h
          simp only [Bool.not_false, if_true] at h
          cases hm : mostRecent (cands.filter fun c' => decide (c'.year ≤ y)) with
          | none =>
            rw [hm] at h
            simp at h
          | some c0 =>
            rw [hm] at h
            have hc0 : c0 = c := by
              cases h
              rfl
            subst hc0
            exact (List.mem_filter.mp (mostRecent_mem hm)).1
      · have hex' : ((cands.filter fun c' => c'.year == y).isEmpty) = false := by
          simpa using hex
        rw [hex'] at h
        simp only [Bool.not_false, if_true] at h
        cases hm : mostRecent (cands.filter fun c' => c'.year == y) with
        | none =>
          rw [hm] at h
          simp at h
        | some c0 =>
          rw [hm] at h
          have hc0 : c0 = c := by
            cases h
            rfl
          subst hc0
          exact (List.mem_filter.mp (mostRecent_mem hm)).1

theorem locate10k_result_mem
    (entries : List FilingEntry) (y? : Option Nat) (c : Candidate)
    (h : locate10k entries y? = Except.ok c) :
    ∃ cands, buildCandidates entries = Except.ok cands ∧ c ∈ cands := by
  cases hb : buildCandidates entries with
  | error msg =>
    unfold locate10k at h
    rw [hb] at h
    simp at h
  | ok cands =>
    rw [locate10k_eq_select hb] at h
    exact ⟨cands, rfl, selectCandidate_result_mem cands y? c h⟩

/-- Original 10-K fact, filed 2023-11-01, value 1. -/
def c10Original : Fact :=
  ⟨some "2023-09-30", some "10-K", some "FY", some "2023-11-01", some 1, none⟩

/-- Amended 10-K/A fact for the same period, filed later, value 2. -/
def c10Amended : Fact :=
  ⟨some "2023-09-30", some "10-K/A", some "FY", some "2024-02-01", some 2, none⟩

/-- Fact store holding the original and amended facts. -/
def c10Store : List (String × ConceptObj) :=
  [("Revenues", [("USD", [c10Original, c10Amended])])]

/-- C10: every filing the locator returns originates from a history
row whose form is exactly `"10-K"` (so a `"10-K/A"` amendment is never
selected), while the concept resolver's form filter is a substring test
that a fact with form `"10-K/A"` passes — and, being later filed, such a
fact wins the recency tie-break, as on the concrete `c10Store`. -/
theorem form_exact_vs_substring
    (entries : List FilingEntry) (y? : Option Nat) (c : Candidate)
    (hloc : locate10k entries y? = Except.ok c) :
    (∃ e ∈ entries, e.form = "10-K" ∧ c.accession_number = e.acc ∧
      c.report_date = e.rdate) ∧
    (∀ f : Fact, f.form = some "10-K/A" → filter_facts [f] none true false = [f]) ∧
    pick_fact_value c10Store ["Revenues"] (some "2023-09-30") =
      Except.ok (some 2, some "Revenues") := by
  refine ⟨?_, ?_, by rfl⟩
  · obtain ⟨cands, hb, hmem⟩ := locate10k_result_mem entries y? c hloc
    exact buildCandidates_sourceForm entries cands hb c hmem
  · intro f hf
    simp [filter_facts, hf]
    decide

/-- History with a 10-K and a later-filed 10-K/A amendment, for the C10
witness. -/
def c10Entries : List FilingEntry :=
  [⟨"10-K", "accOrig", "doc", "2023-09-30"⟩,
   ⟨"10-K/A", "accAmend", "doc", "2023-09-30"⟩]

/-- C10 witness: on `c10Entries` the locator returns the filing built from
the exact `"10-K"` row, and the resolver-side conjuncts hold. -/
theorem form_exact_vs_substring_witness :
    (∃ e ∈ c10Entries, e.form = "10-K" ∧
      Candidate.accession_number ⟨"accOrig", "doc", "2023-09-30", 2023⟩ = e.acc ∧
      Candidate.report_date ⟨"accOrig", "doc", "2023-09-30", 2023⟩ = e.rdate) ∧
    (∀ f : Fact, f.form = some "10-K/A" → filter_facts [f] none true false = [f]) ∧
    pick_fact_value c10Store ["Revenues"] (some "2023-09-30") =
      Except.ok (some 2, some "Revenues") :=
  form_exact_vs_substring c10Entries none ⟨"accOrig", "doc", "2023-09-30", 2023⟩
    (by rfl)

/-! ## C9: JSON recovery from the language-model response -/

theorem firstIdxOf_spec (c : Char) (l : List Char) (i : Nat)
    (h : firstIdxOf c l = some i) : l.get? i = some c := by
  induction l generalizing i with
  | nil => simp [firstIdxOf] at h
  | cons x xs ih =>
    by_cases hx : (x == c) = true
    · simp only [firstIdxOf, hx, if_true] at h
      have hi : i = 0 := by
        cases h
        rfl
      subst hi
      simp [beq_iff_eq.mp hx]
    · simp only [firstIdxOf, hx, if_false] at h
      cases hk : firstIdxOf c xs with
      | none =>
        rw [hk] at h
        simp at h
      | some k =>
        rw [hk] at h
        have hi : i = k + 1 := by
          cases h
          rfl
        subst hi
        simpa using ih k hk

theorem firstIdxOf_min (c : Char) (l : List Char) (i0 : Nat)
    (h : firstIdxOf c l = some i0) :
    ∀ i, l.get? i = some c → i0 ≤ i := by
  induction l generalizing i0 with
  | nil => simp [firstIdxOf] at h
  | cons x xs ih =>
    by_cases hx : (x == c) = true
    · simp only [firstIdxOf, hx, if_true] at h
      have hi : i0 = 0 := by
        cases h
        rfl
      subst hi
      intro i _
      exact Nat.zero_le i
    · simp only [firstIdxOf, hx, if_false] at h
      cases hk : firstIdxOf c xs with
      | none =>
        rw [hk] at h
        simp at h
      | some k =>
        rw [hk] at h
        have hi : i0 = k + 1 := by
          cases h
          rfl
        subst hi
        intro i hgi
        cases i with
        | zero =>
          simp at hgi
          rw [hgi] at hx
          simp at hx
        | succ i' =>
          simp only [List.get?_cons_succ] at hgi
          exact Nat.succ_le_succ (ih k hk i' hgi)

theorem firstIdxOf_none (c : Char) (l : List Char)
    (h : firstIdxOf c l = none) : ∀ i, l.get? i ≠ some c := by
  induction l with
  | nil => simp
  | cons x xs ih =>
    by_cases hx : (x == c) = true
    · simp [firstIdxOf, hx] at h
    · simp only [firstIdxOf, hx, if_false] at h
      cases hk : firstIdxOf c xs with
      | none =>
        intro i
        cases i with
        | zero =>
          simp
          intro he
          rw [he] at hx
          simp at hx
        | succ i' =>
          simp only [List.get?_cons_succ]
          exact ih hk i'
      | some k =>
        rw [hk] at h
        simp at h

theorem lastIdxOf_spec (c : Char) (l : List Char) (j : Nat)
    (h : lastIdxOf c l = some j) : l.get? j = some c := by
  induction l generalizing j with
  | nil => simp [lastIdxOf] at h
  | cons x xs ih =>
    cases hk : lastIdxOf c xs with
    | some k =>
      simp only [lastIdxOf, hk] at h
      have hj : j = k + 1 := by
        cases h
        rfl
      subst hj
      simpa using ih k hk
    | none =>
      simp only [lastIdxOf, hk] at h
      by_cases hx : (x == c) = true
      · rw [if_pos hx] at h
        have hj : j = 0 := by
          cases h
          rfl
        subst hj
        simp [beq_iff_eq.mp hx]
      · rw [if_neg hx] at h
        simp at h

theorem lastIdxOf_none (c : Char) (l : List Char)
    (h : lastIdxOf c l = none) : ∀ j, l.get? j ≠ some c := by
  induction l with
  | nil => simp
  | cons x xs ih =>
    cases hk : lastIdxOf c xs with
    | some k => simp [lastIdxOf, hk] at h
    | none =>
      simp only [lastIdxOf, hk] at h
      by_cases hx : (x == c) = true
      · rw [if_pos hx] at h
        simp at h
      · intro j
        cases j with
        | zero =>
          simp
          intro he
          rw [he] at hx
          simp at hx
        | succ j' =>
          simp only [List.get?_cons_succ]
          exact ih hk j'

theorem lastIdxOf_max (c : Char) (l : List Char) (j0 : Nat)
    (h : lastIdxOf c l = some j0) :
    ∀ j, l.get? j = some c → j ≤ j0 := by
  induction l generalizing j0 with
  | nil => simp [lastIdxOf] at h
  | cons x xs ih =>
    cases hk : lastIdxOf c xs with
    | some k =>
      simp only [lastIdxOf, hk] at h
      have hj : j0 = k + 1 := by
        cases h
        rfl
      subst hj
      intro j hgj
      cases j with
      | zero => exact Nat.zero_le _
      | succ j' =>
        simp only [List.get?_cons_succ] at hgj
        exact Nat.succ_le_succ (ih k hk j' hgj)
    | none =>
      simp only [lastIdxOf, hk] at h
      by_cases hx : (x == c) = true
      · rw [if_pos hx] at h
        have hj : j0 = 0 := by
          cases h
          rfl
        subst hj
        intro j hgj
        cases j with
        | zero => exact Nat.le_refl 0
        | succ j' =>
          simp only [List.get?_cons_succ] at hgj
          exact absurd hgj (lastIdxOf_none c xs hk j')
      · rw [if_neg hx] at h
        simp at h

/-- C9 (amended): extraction first parses the whole content as JSON;
failing that it takes the greedy span from the first opening brace to the
last closing brace and parses that.  A single object wrapped in prose is
recovered; when no such span exists the error carries the content; when
the span itself is not valid JSON the error carries the span — even if a
smaller balanced block would have parsed.  The last two conjuncts pin the
span down: it runs between an opening and a later closing brace, and it
is absent exactly when no opening brace precedes any closing brace. -/
theorem json_recovery_greedy_span (content : String) :
    (∀ v, json_loads content = some v →
      extract_json_object content = Except.ok v) ∧
    (json_loads content = none → ∀ sub v, greedyBraceSpan content = some sub →
      json_loads sub = some v → extract_json_object content = Except.ok v) ∧
    (json_loads content = none → ∀ sub, greedyBraceSpan content = some sub →
      json_loads sub = none →
      extract_json_object content =
        Except.error ("Failed to parse extracted JSON substring.\n" ++ sub)) ∧
    (json_loads content = none → greedyBraceSpan content = none →
      extract_json_object content =
        Except.error ("Could not find a JSON object in DeepSeek response.\n" ++ content)) ∧
    (∀ sub, greedyBraceSpan content = some sub →
      ∃ i j, i < j ∧ content.toList.get? i = some lbrace ∧
        content.toList.get? j = some rbrace ∧
        sub = String.mk ((content.toList.drop i).take (j - i + 1))) ∧
    (greedyBraceSpan content = none →
      ∀ i j, i < j → content.toList.get? i = some lbrace →
        content.toList.get? j = some rbrace → False) := by
  refine ⟨?_, ?_, ?_, ?_, ?_, ?_⟩
  · intro v hv
    simp [extract_json_object, hv]
  · intro hnone sub v hsub hv
    simp [extract_json_object, hnone, hsub, hv]
  · intro hnone sub hsub hvn
    simp [extract_json_object, hnone, hsub, hvn]
  · intro hnone hgn
    simp [extract_json_object, hnone, hgn]
  · intro sub hsub
    simp only [greedyBraceSpan] at hsub
    cases hfi : firstIdxOf lbrace content.toList with
    | none =>
      rw [hfi] at hsub
      simp at hsub
    | some i =>
      cases hla : lastIdxOf rbrace content.toList with
      | none =>
        rw [hfi, hla] at hsub
        simp at hsub
      | some j =>
        rw [hfi, hla] at hsub
        simp only at hsub
        by_cases hij : i < j
        · rw [if_pos hij] at hsub
          refine ⟨i, j, hij, firstIdxOf_spec _ _ _ hfi, lastIdxOf_spec _ _ _ hla, ?_⟩
          cases hsub
          rfl
        · rw [if_neg hij] at hsub
          simp at hsub
  · intro hgn i j hij hgi hgj
    simp only [greedyBraceSpan] at hgn
    cases hfi : firstIdxOf lbrace content.toList with
    | none => exact firstIdxOf_none _ _ hfi i hgi
    | some i0 =>
      cases hla : lastIdxOf rbrace content.toList with
      | none => exact lastIdxOf_none _ _ hla j hgj
      | some j0 =>
        rw [hfi, hla] at hgn
        simp only at hgn
        by_cases hij0 : i0 < j0
        · rw [if_pos hij0] at hgn
          simp at hgn
        · have h1 : i0 ≤ i := firstIdxOf_min _ _ _ hfi i hgi
          have h2 : j ≤ j0 := lastIdxOf_max _ _ _ hla j hgj
          omega

/-- Response content wrapping one JSON object in prose. -/
def c9Prose : String := "Sure! \x7b\"net_sales\": 500\x7d"

/-- Response content holding two JSON objects: the greedy span (first
brace to last brace) is not valid JSON, but its first balanced block is. -/
def c9TwoObjects : String := "\x7b\"a\": 1\x7d \x7b\"b\": 2\x7d"

/-- C9 counterexample: on `c9TwoObjects` the code raises (the greedy
first-to-last-brace span fails to parse) even though the first balanced
brace block is a recoverable JSON object — extraction is not
"recovery from the first balanced block". -/
theorem json_recovery_not_first_balanced :
    extract_json_object c9TwoObjects =
      Except.error ("Failed to parse extracted JSON substring.\n" ++ c9TwoObjects) ∧
    (firstBalancedBlock c9TwoObjects).bind json_loads =
      some (JVal.jobj [("a", JVal.jnum 1)]) := by
  constructor
  · rfl
  · rfl

/-- C9 witness: prose-wrapped single object is recovered via the greedy
span (conjunct 2 of the amended theorem at concrete input). -/
theorem json_recovery_greedy_span_witness :
    extract_json_object c9Prose =
      Except.ok (JVal.jobj [("net_sales", JVal.jnum 500)]) :=
  (json_recovery_greedy_span c9Prose).2.1 (by rfl)
    "\x7b\"net_sales\": 500\x7d" (JVal.jobj [("net_sales", JVal.jnum 500)])
    (by rfl) (by rfl)

end Sec
